import Mathlib

/-!
Shallow embedding of the conversation-store and completion-orchestration
core of the smartchat repository (internal/service/chat/chat.go, with the
completion client of internal/service/openai).

Modelling conventions:
* Go strings are modelled as Lean `String` (sequences of characters).
* `time.Now().UTC()` is modelled by an explicit `now : Nat` argument to each
  top-level operation; every stamp taken inside one operation uses it.
* `uuid.NewString()` is modelled by an explicit fresh-identifier argument.
* The redis backing store keeps four key families with distinct prefixes
  (`userchats:`, `chatmeta:`, `chatmessages:`, `chatowner:`), so the state
  is split into four maps, each still indexed by the full prefixed key.
  A `chatmeta` value is `Option (Option ChatSummary)`: outer `none` means
  the key is absent (redis.Nil on Get), `some none` means the stored bytes
  do not decode (json.Unmarshal failure), `some (some s)` decodes to `s`.
  A `chatmessages` list element is `Option Message` with `none` for an
  entry that does not decode.
* Network failures of individual redis calls are injected by a fault
  schedule `F : Nat → Bool` consumed one slot per redis call; a TxPipeline
  Exec is a single slot and applies all its writes atomically or none.
  The completion backend is an oracle returning `Option` (`none` = failure).
* `json.Marshal` of the record types produced here cannot fail and is
  modelled as the identity.
-/

structure ChatSummary where
  id : String
  title : String
  updatedAt : Nat
deriving DecidableEq, Repr

structure Message where
  role : String
  content : String
  createdAt : Nat
deriving DecidableEq, Repr

structure ChatView where
  summary : ChatSummary
  messages : List Message
deriving DecidableEq, Repr

structure OMessage where
  role : String
  content : String
deriving DecidableEq, Repr

structure Usage where
  promptTokens : Int
  completionTokens : Int
  totalTokens : Int
deriving DecidableEq, Repr

inductive Err where
  | notAuthorized
  | backingStore
  | nilKey
  | jsonError
  | completion
deriving DecidableEq, Repr

structure St where
  owner : String → Option String
  meta : String → Option (Option ChatSummary)
  msgs : String → List (Option Message)
  index : String → List String

def userChatsKey (email : String) : String := "userchats:" ++ email

def chatMetaKey (chatID : String) : String := "chatmeta:" ++ chatID

def chatMessagesKey (chatID : String) : String := "chatmessages:" ++ chatID

def chatOwnerKey (chatID : String) : String := "chatowner:" ++ chatID

def RedisM (α : Type) : Type := (Nat → Bool) → Nat → St → Except Err α × Nat × St

def pureR {α : Type} (a : α) : RedisM α := fun _ n st => (Except.ok a, n, st)

def bindR {α β : Type} (x : RedisM α) (f : α → RedisM β) : RedisM β :=
  fun F n st =>
    match x F n st with
    | (Except.ok a, n1, st1) => f a F n1 st1
    | (Except.error e, n1, st1) => (Except.error e, n1, st1)

def throwE {α : Type} (e : Err) : RedisM α := fun _ n st => (Except.error e, n, st)

def redisRead {α : Type} (read : St → α) : RedisM α :=
  fun F n st =>
    if F n then (Except.error Err.backingStore, n + 1, st)
    else (Except.ok (read st), n + 1, st)

def redisWrite (write : St → St) : RedisM Unit :=
  fun F n st =>
    if F n then (Except.error Err.backingStore, n + 1, st)
    else (Except.ok (), n + 1, write st)

def tryCall {α : Type} (m : RedisM α) : RedisM (Option α) :=
  fun F n st =>
    match m F n st with
    | (Except.ok a, n1, st1) => (Except.ok (some a), n1, st1)
    | (Except.error _, n1, st1) => (Except.ok none, n1, st1)

def getOwner (key : String) : RedisM (Option String) :=
  redisRead (fun st => st.owner key)

def getMetaRaw (key : String) : RedisM (Option (Option ChatSummary)) :=
  redisRead (fun st => st.meta key)

def lrangeIndex (key : String) (count : Nat) : RedisM (List String) :=
  redisRead (fun st => (st.index key).take count)

def lrangeMsgsAll (key : String) : RedisM (List (Option Message)) :=
  redisRead (fun st => st.msgs key)

def rpushEffect (key : String) (v : Option Message) (st : St) : St :=
  { st with msgs := fun k => if k = key then st.msgs k ++ [v] else st.msgs k }

def rpushMsg (key : String) (v : Option Message) : RedisM Unit :=
  redisWrite (rpushEffect key v)

/-- strings.TrimSpace: remove leading and trailing whitespace characters.
Implemented on the character list so that it evaluates by kernel
reduction. -/
def trimSpace (s : String) : String :=
  ⟨((s.data.dropWhile Char.isWhitespace).reverse.dropWhile Char.isWhitespace).reverse⟩

def summarizeTitle (content : String) : String :=
  let trimmed := trimSpace content
  if trimmed.length > 32 then trimmed.take 32 else trimmed

/-- The state transformation of the TxPipeline in saveChatMeta:
Set chatmeta, Set chatowner, LRem all occurrences of the id from the
user index, LPush the id at the front, applied atomically. -/
def saveMetaEffect (userEmail : String) (summary : ChatSummary) (st : St) : St :=
  { st with
    meta := fun k => if k = chatMetaKey summary.id then some (some summary) else st.meta k,
    owner := fun k => if k = chatOwnerKey summary.id then some userEmail else st.owner k,
    index := fun k =>
      if k = userChatsKey userEmail
      then summary.id :: (st.index k).filter (fun x => x != summary.id)
      else st.index k }

def saveChatMeta (userEmail : String) (summary : ChatSummary) : RedisM Unit :=
  redisWrite (saveMetaEffect userEmail summary)

/-- The summary produced by touchChat from the stored summary: derive the
title when it is still the sentinel and the content trims non-empty, and
stamp updatedAt. -/
def touchedSummary (summary : ChatSummary) (lastContent : String) (now : Nat) : ChatSummary :=
  let s1 :=
    if summary.title = "New chat" ∧ trimSpace lastContent ≠ ""
    then { summary with title := summarizeTitle lastContent }
    else summary
  { s1 with updatedAt := now }

def touchChat (now : Nat) (userEmail chatID lastContent : String) : RedisM Unit :=
  bindR (getMetaRaw (chatMetaKey chatID)) (fun metaData =>
    match metaData with
    | none => throwE Err.nilKey
    | some none => throwE Err.jsonError
    | some (some summary) =>
        saveChatMeta userEmail (touchedSummary summary lastContent now))

def verifyOwner (userEmail chatID : String) : RedisM Bool :=
  bindR (getOwner (chatOwnerKey chatID)) (fun owner =>
    match owner with
    | none => pureR false
    | some o => pureR (o == userEmail))

def fetchMessages (chatID : String) : RedisM (List Message) :=
  bindR (lrangeMsgsAll (chatMessagesKey chatID)) (fun values =>
    pureR (values.filterMap id))

def NewChat (chatID : String) (now : Nat) (userEmail title : String) : RedisM ChatSummary :=
  let title1 := if trimSpace title = "" then "New chat" else title
  let summary : ChatSummary := ⟨chatID, title1, now⟩
  bindR (saveChatMeta userEmail summary) (fun _ => pureR summary)

def resolveSummaries : List String → RedisM (List ChatSummary)
  | [] => pureR []
  | id :: rest =>
      bindR (tryCall (getMetaRaw (chatMetaKey id))) (fun data =>
        bindR (resolveSummaries rest) (fun tail =>
          match data with
          | some (some (some s)) => pureR (s :: tail)
          | _ => pureR tail))

def ListChats (userEmail : String) : RedisM (List ChatSummary) :=
  bindR (lrangeIndex (userChatsKey userEmail) 20) (fun ids =>
    if ids.isEmpty then pureR [] else resolveSummaries ids)

def GetChat (userEmail chatID : String) : RedisM ChatView :=
  bindR (verifyOwner userEmail chatID) (fun ok =>
    if !ok then throwE Err.notAuthorized else
    bindR (getMetaRaw (chatMetaKey chatID)) (fun metaData =>
      match metaData with
      | none => throwE Err.nilKey
      | some none => throwE Err.jsonError
      | some (some summary) =>
          bindR (fetchMessages chatID) (fun messages =>
            pureR ⟨summary, messages⟩)))

def AppendMessage (now : Nat) (userEmail chatID role content : String) : RedisM Message :=
  bindR (verifyOwner userEmail chatID) (fun ok =>
    if !ok then throwE Err.notAuthorized else
    let message : Message := ⟨role, content, now⟩
    bindR (rpushMsg (chatMessagesKey chatID) (some message)) (fun _ =>
      bindR (touchChat now userEmail chatID content) (fun _ =>
        pureR message)))

def RunCompletion (ai : String → List OMessage → Rat → Option (OMessage × Usage))
    (now : Nat) (userEmail chatID model : String) (temperature : Rat) :
    RedisM (Message × Usage) :=
  bindR (verifyOwner userEmail chatID) (fun ok =>
    if !ok then throwE Err.notAuthorized else
    bindR (fetchMessages chatID) (fun messages =>
      let aiMessages := messages.map (fun m => OMessage.mk m.role m.content)
      match ai model aiMessages temperature with
      | none => throwE Err.completion
      | some (response, usage) =>
          let stored : Message := ⟨response.role, response.content, now⟩
          bindR (rpushMsg (chatMessagesKey chatID) (some stored)) (fun _ =>
            bindR (touchChat now userEmail chatID response.content) (fun _ =>
              pureR (stored, usage)))))

def EnsureChat (freshID : String) (now : Nat) (userEmail : String) : RedisM ChatSummary :=
  bindR (ListChats userEmail) (fun summaries =>
    match summaries with
    | s :: _ => pureR s
    | [] => NewChat freshID now userEmail "New chat")

/-! ### Derived notions used to state the properties -/

/-- The boolean verifyOwner computes when its redis Get succeeds. -/
def ownerMatches (st : St) (userEmail chatID : String) : Bool :=
  match st.owner (chatOwnerKey chatID) with
  | none => false
  | some o => o == userEmail

/-- Resolution of one index entry to its summary, as ListChats does it:
missing record or undecodable record resolves to nothing. -/
def resolveMeta (st : St) (id : String) : Option ChatSummary :=
  match st.meta (chatMetaKey id) with
  | some (some s) => some s
  | _ => none

/-- A well-formed chat in the store: an ownership record for the caller and
a decodable summary record whose id field is the chat identifier. -/
def ChatOK (st : St) (userEmail chatID : String) : Prop :=
  st.owner (chatOwnerKey chatID) = some userEmail ∧
  ∃ s, st.meta (chatMetaKey chatID) = some (some s) ∧ s.id = chatID

/-- A fault schedule on which every redis call succeeds. -/
def NoFaults (F : Nat → Bool) : Prop := ∀ k, F k = false

def noFaultSched : Nat → Bool := fun _ => false

/-- Every user chat index is duplicate-free. -/
def IndexNodup (st : St) : Prop := ∀ k, (st.index k).Nodup

/-- A summary record exists exactly when the ownership record does. -/
def MetaOwnerInv (st : St) : Prop :=
  ∀ id, (st.meta (chatMetaKey id)).isSome ↔ (st.owner (chatOwnerKey id)).isSome

/-- One store-mutating request, as issued by the handler layer. -/
inductive Op where
  | opNew (chatID : String) (now : Nat) (userEmail title : String)
  | opAppend (now : Nat) (userEmail chatID role content : String)
  | opRun (ai : String → List OMessage → Rat → Option (OMessage × Usage))
      (now : Nat) (userEmail chatID model : String) (temperature : Rat)

def runOp : Op → RedisM Unit
  | Op.opNew cid now u t => bindR (NewChat cid now u t) (fun _ => pureR ())
  | Op.opAppend now u cid role content =>
      bindR (AppendMessage now u cid role content) (fun _ => pureR ())
  | Op.opRun ai now u cid model temp =>
      bindR (RunCompletion ai now u cid model temp) (fun _ => pureR ())

/-- A sequence of independent requests; an error in one request does not
stop the later ones. -/
def runOps : List Op → RedisM Unit
  | [] => pureR ()
  | op :: rest => bindR (tryCall (runOp op)) (fun _ => runOps rest)

/-- One append event on a chat: a direct AppendMessage call, or a
RunCompletion call that stores the backend reply. -/
inductive AppendEv where
  | user (now : Nat) (role content : String)
  | reply (ai : String → List OMessage → Rat → Option (OMessage × Usage))
      (now : Nat) (model : String) (temperature : Rat)

/-- Run a sequence of append events on one chat, collecting the stored
messages in the order they were appended. -/
def runAppendEvents (userEmail chatID : String) : List AppendEv → RedisM (List Message)
  | [] => pureR []
  | AppendEv.user now role content :: rest =>
      bindR (AppendMessage now userEmail chatID role content) (fun m =>
        bindR (runAppendEvents userEmail chatID rest) (fun ms =>
          pureR (m :: ms)))
  | AppendEv.reply ai now model temperature :: rest =>
      bindR (RunCompletion ai now userEmail chatID model temperature) (fun mu =>
        bindR (runAppendEvents userEmail chatID rest) (fun ms =>
          pureR (mu.1 :: ms)))

/-- An event that cannot fail for backend reasons: a completion event must
carry an oracle that always returns a reply. -/
def EvOK : AppendEv → Prop
  | AppendEv.user _ _ _ => True
  | AppendEv.reply ai _ _ _ => ∀ m ms t, (ai m ms t).isSome

/-! ### Concrete fixtures -/

/-- A freshly created summary for chat c1, still carrying the sentinel title. -/
def sum1 : ChatSummary := ⟨"c1", "New chat", 0⟩

/-- A store holding exactly one chat c1 owned by u@example.com, with an
empty message log. -/
def st0 : St :=
  { owner := fun k => if k = chatOwnerKey "c1" then some "u@example.com" else none,
    meta := fun k => if k = chatMetaKey "c1" then some (some sum1) else none,
    msgs := fun _ => [],
    index := fun k => if k = userChatsKey "u@example.com" then ["c1"] else [] }

/-- A store whose index for u@example.com names three chats: c1 resolvable,
bad stored but undecodable, gone missing entirely. -/
def stList : St :=
  { owner := fun k => if k = chatOwnerKey "c1" then some "u@example.com" else none,
    meta := fun k =>
      if k = chatMetaKey "c1" then some (some sum1)
      else if k = chatMetaKey "bad" then some none
      else none,
    msgs := fun _ => [],
    index := fun k =>
      if k = userChatsKey "u@example.com" then ["c1", "bad", "gone"] else [] }

/-- The state after appending content "New chat" to chat c1 of st0. -/
def st1c : St :=
  (AppendMessage 1 "u@example.com" "c1" "user" "New chat" noFaultSched 0 st0).2.2

/-- The state after then appending content "hello" to chat c1. -/
def st2c : St :=
  (AppendMessage 2 "u@example.com" "c1" "user" "hello" noFaultSched 0 st1c).2.2

/-- A fault schedule failing exactly the fourth redis call of a run:
for AppendMessage started at counter 0 this is the touch transaction. -/
def faultAt3 : Nat → Bool := fun k => k == 3

/-- A completion backend that always replies "fine" as the assistant. -/
def aiStub : String → List OMessage → Rat → Option (OMessage × Usage) :=
  fun _ _ _ => some (⟨"assistant", "fine"⟩, ⟨1, 1, 2⟩)

/-! ### Helper lemmas -/

theorem string_append_left_cancel {p a b : String} (h : p ++ a = p ++ b) : a = b := by
  have h2 : (p ++ a).data = (p ++ b).data := congrArg String.data h
  rw [String.data_append, String.data_append] at h2
  exact String.ext (List.append_cancel_left h2)

theorem chatMetaKey_inj {a b : String} (h : chatMetaKey a = chatMetaKey b) : a = b :=
  string_append_left_cancel h

theorem chatOwnerKey_inj {a b : String} (h : chatOwnerKey a = chatOwnerKey b) : a = b :=
  string_append_left_cancel h

theorem summarizeTitle_eq_take (c : String) :
    summarizeTitle c = (trimSpace c).take 32 := by
  unfold summarizeTitle
  by_cases h : (trimSpace c).length > 32
  · simp [h]
  · simp [h]
    have h2 : (trimSpace c).data.length ≤ 32 := Nat.le_of_not_lt h
    rw [String.take_eq]
    exact (String.ext (List.take_of_length_le h2)).symm

theorem touchedSummary_id (s : ChatSummary) (c : String) (now : Nat) :
    (touchedSummary s c now).id = s.id := by
  simp only [touchedSummary]
  split <;> rfl

theorem touchedSummary_title_derive (s : ChatSummary) (c : String) (now : Nat)
    (h1 : s.title = "New chat") (h2 : trimSpace c ≠ "") :
    (touchedSummary s c now).title = summarizeTitle c := by
  simp only [touchedSummary]
  rw [if_pos ⟨h1, h2⟩]

theorem touchedSummary_title_keep (s : ChatSummary) (c : String) (now : Nat)
    (h1 : s.title ≠ "New chat") :
    (touchedSummary s c now).title = s.title := by
  simp only [touchedSummary]
  rw [if_neg (fun hc => h1 hc.1)]

theorem verifyOwner_run (u cid : String) (F : Nat → Bool) (n : Nat) (st : St)
    (hF : F n = false) :
    verifyOwner u cid F n st = (Except.ok (ownerMatches st u cid), n + 1, st) := by
  simp only [verifyOwner, bindR, getOwner, redisRead, ownerMatches, pureR, hF]
  cases st.owner (chatOwnerKey cid) <;> simp [pureR]

theorem fetchMessages_run (cid : String) (F : Nat → Bool) (n : Nat) (st : St)
    (hF : F n = false) :
    fetchMessages cid F n st =
      (Except.ok ((st.msgs (chatMessagesKey cid)).filterMap id), n + 1, st) := by
  simp [fetchMessages, bindR, lrangeMsgsAll, redisRead, pureR, hF]

theorem touchChat_run (now : Nat) (u cid c : String) (F : Nat → Bool) (n : Nat) (st : St)
    (s : ChatSummary) (hF0 : F n = false) (hF1 : F (n + 1) = false)
    (hmeta : st.meta (chatMetaKey cid) = some (some s)) :
    touchChat now u cid c F n st =
      (Except.ok (), n + 2, saveMetaEffect u (touchedSummary s c now) st) := by
  simp [touchChat, bindR, getMetaRaw, redisRead, saveChatMeta, redisWrite, hF0, hF1, hmeta]

theorem verifyOwner_fault (u cid : String) (F : Nat → Bool) (n : Nat) (st : St)
    (hF : F n = true) :
    verifyOwner u cid F n st = (Except.error Err.backingStore, n + 1, st) := by
  simp [verifyOwner, bindR, getOwner, redisRead, hF]

theorem ownerMatches_true (st : St) (u cid : String)
    (howner : st.owner (chatOwnerKey cid) = some u) :
    ownerMatches st u cid = true := by
  simp [ownerMatches, howner]

theorem AppendMessage_ok (now : Nat) (u cid role content : String)
    (F : Nat → Bool) (n : Nat) (st : St) (s : ChatSummary)
    (hF0 : F n = false) (hF1 : F (n + 1) = false)
    (hF2 : F (n + 2) = false) (hF3 : F (n + 3) = false)
    (howner : st.owner (chatOwnerKey cid) = some u)
    (hmeta : st.meta (chatMetaKey cid) = some (some s)) :
    AppendMessage now u cid role content F n st =
      (Except.ok ⟨role, content, now⟩, n + 4,
       saveMetaEffect u (touchedSummary s content now)
         (rpushEffect (chatMessagesKey cid) (some ⟨role, content, now⟩) st)) := by
  have h1 := verifyOwner_run u cid F n st hF0
  rw [ownerMatches_true st u cid howner] at h1
  have h3 := touchChat_run now u cid content F (n + 2)
    (rpushEffect (chatMessagesKey cid) (some ⟨role, content, now⟩) st) s hF2 hF3 hmeta
  simp only [AppendMessage, bindR, h1, rpushMsg, redisWrite, hF1, Bool.not_true,
    Bool.false_eq_true, if_false, h3, pureR]

theorem GetChat_ok (u cid : String) (F : Nat → Bool) (n : Nat) (st : St) (s : ChatSummary)
    (hF0 : F n = false) (hF1 : F (n + 1) = false) (hF2 : F (n + 2) = false)
    (howner : st.owner (chatOwnerKey cid) = some u)
    (hmeta : st.meta (chatMetaKey cid) = some (some s)) :
    GetChat u cid F n st =
      (Except.ok ⟨s, (st.msgs (chatMessagesKey cid)).filterMap id⟩, n + 3, st) := by
  have h1 := verifyOwner_run u cid F n st hF0
  rw [ownerMatches_true st u cid howner] at h1
  have h2 := fetchMessages_run cid F (n + 2) st hF2
  simp only [GetChat, bindR, h1, Bool.not_true, Bool.false_eq_true, if_false,
    getMetaRaw, redisRead, hF1, if_false, hmeta, h2, pureR]

theorem NewChat_run (cid : String) (now : Nat) (u title : String)
    (F : Nat → Bool) (n : Nat) (st : St) :
    NewChat cid now u title F n st =
      if F n
      then (Except.error Err.backingStore, n + 1, st)
      else
        (Except.ok ⟨cid, if trimSpace title = "" then "New chat" else title, now⟩, n + 1,
         saveMetaEffect u ⟨cid, if trimSpace title = "" then "New chat" else title, now⟩ st) := by
  by_cases hF : F n <;>
    simp [NewChat, bindR, saveChatMeta, redisWrite, pureR, hF]

theorem RunCompletion_ok (ai : String → List OMessage → Rat → Option (OMessage × Usage))
    (now : Nat) (u cid model : String) (temperature : Rat)
    (F : Nat → Bool) (n : Nat) (st : St) (s : ChatSummary)
    (response : OMessage) (usage : Usage)
    (hF0 : F n = false) (hF1 : F (n + 1) = false) (hF2 : F (n + 2) = false)
    (hF3 : F (n + 3) = false) (hF4 : F (n + 4) = false)
    (howner : st.owner (chatOwnerKey cid) = some u)
    (hmeta : st.meta (chatMetaKey cid) = some (some s))
    (hai : ai model
        (((st.msgs (chatMessagesKey cid)).filterMap id).map
          (fun m => OMessage.mk m.role m.content)) temperature = some (response, usage)) :
    RunCompletion ai now u cid model temperature F n st =
      (Except.ok (⟨response.role, response.content, now⟩, usage), n + 5,
       saveMetaEffect u (touchedSummary s response.content now)
         (rpushEffect (chatMessagesKey cid)
           (some ⟨response.role, response.content, now⟩) st)) := by
  have h1 := verifyOwner_run u cid F n st hF0
  rw [ownerMatches_true st u cid howner] at h1
  have h2 := fetchMessages_run cid F (n + 1) st hF1
  have h3 := touchChat_run now u cid response.content F (n + 3)
    (rpushEffect (chatMessagesKey cid) (some ⟨response.role, response.content, now⟩) st)
    s hF3 hF4 hmeta
  simp only [RunCompletion, bindR, h1, Bool.not_true, Bool.false_eq_true, if_false,
    h2, hai, rpushMsg, redisWrite, hF2, h3, pureR]

theorem RunCompletion_backend_failure
    (ai : String → List OMessage → Rat → Option (OMessage × Usage))
    (now : Nat) (u cid model : String) (temperature : Rat)
    (F : Nat → Bool) (n : Nat) (st : St)
    (hai : ∀ m ms t, ai m ms t = none) :
    (∃ e, (RunCompletion ai now u cid model temperature F n st).1 = Except.error e) ∧
    (RunCompletion ai now u cid model temperature F n st).2.2 = st := by
  by_cases hF0 : F n
  · have h1 := verifyOwner_fault u cid F n st hF0
    simp [RunCompletion, bindR, h1]
  · have hF0f : F n = false := by simpa using hF0
    have h1 := verifyOwner_run u cid F n st hF0f
    by_cases hok : ownerMatches st u cid
    · rw [hok] at h1
      by_cases hF1 : F (n + 1)
      · have h2 : fetchMessages cid F (n + 1) st =
            (Except.error Err.backingStore, n + 2, st) := by
          simp [fetchMessages, bindR, lrangeMsgsAll, redisRead, hF1]
        simp [RunCompletion, bindR, h1, h2]
      · have hF1f : F (n + 1) = false := by simpa using hF1
        have h2 := fetchMessages_run cid F (n + 1) st hF1f
        simp [RunCompletion, bindR, h1, h2, hai, throwE]
    · have hokf : ownerMatches st u cid = false := by simpa using hok
      rw [hokf] at h1
      simp [RunCompletion, bindR, h1, throwE]

theorem tryCall_getMetaRaw (key : String) (F : Nat → Bool) (n : Nat) (st : St) :
    tryCall (getMetaRaw key) F n st =
      (Except.ok (if F n then none else some (st.meta key)), n + 1, st) := by
  by_cases hF : F n <;> simp [tryCall, getMetaRaw, redisRead, hF]

theorem resolveSummaries_run (ids : List String) (F : Nat → Bool) (n : Nat) (st : St) :
    ∃ (l : List ChatSummary) (n1 : Nat),
      resolveSummaries ids F n st = (Except.ok l, n1, st) ∧ l.length ≤ ids.length := by
  induction ids generalizing n with
  | nil => exact ⟨[], n, by simp [resolveSummaries, pureR], by simp⟩
  | cons id rest ih =>
    obtain ⟨l, n1, hl, hlen⟩ := ih (n + 1)
    have ht := tryCall_getMetaRaw (chatMetaKey id) F n st
    by_cases hF : F n
    · refine ⟨l, n1, ?_, Nat.le_succ_of_le hlen⟩
      rw [if_pos hF] at ht
      simp [resolveSummaries, bindR, ht, hl, pureR]
    · rw [if_neg hF] at ht
      cases hm : st.meta (chatMetaKey id) with
      | none =>
        refine ⟨l, n1, ?_, Nat.le_succ_of_le hlen⟩
        simp [resolveSummaries, bindR, ht, hm, hl, pureR]
      | some o =>
        cases o with
        | none =>
          refine ⟨l, n1, ?_, Nat.le_succ_of_le hlen⟩
          simp [resolveSummaries, bindR, ht, hm, hl, pureR]
        | some s =>
          refine ⟨s :: l, n1, ?_, Nat.succ_le_succ hlen⟩
          simp [resolveSummaries, bindR, ht, hm, hl, pureR]

theorem resolveSummaries_nofaults (ids : List String) (F : Nat → Bool) (n : Nat) (st : St)
    (hF : NoFaults F) :
    ∃ n1 : Nat, resolveSummaries ids F n st =
      (Except.ok (ids.filterMap (resolveMeta st)), n1, st) := by
  induction ids generalizing n with
  | nil => exact ⟨n, by simp [resolveSummaries, pureR]⟩
  | cons id rest ih =>
    obtain ⟨n1, hl⟩ := ih (n + 1)
    refine ⟨n1, ?_⟩
    have ht := tryCall_getMetaRaw (chatMetaKey id) F n st
    rw [if_neg (by simp [hF n])] at ht
    cases hm : st.meta (chatMetaKey id) with
    | none => simp [resolveSummaries, bindR, ht, hm, hl, pureR, List.filterMap_cons,
        resolveMeta]
    | some o =>
      cases o with
      | none => simp [resolveSummaries, bindR, ht, hm, hl, pureR, List.filterMap_cons,
          resolveMeta]
      | some s => simp [resolveSummaries, bindR, ht, hm, hl, pureR, List.filterMap_cons,
          resolveMeta]

theorem ListChats_run (u : String) (F : Nat → Bool) (n : Nat) (st : St)
    (hF : F n = false) :
    ∃ (l : List ChatSummary) (n1 : Nat),
      ListChats u F n st = (Except.ok l, n1, st) ∧ l.length ≤ 20 := by
  cases hids : (st.index (userChatsKey u)).take 20 with
  | nil =>
    refine ⟨[], n + 1, ?_, by simp⟩
    simp [ListChats, bindR, lrangeIndex, redisRead, hF, hids, pureR]
  | cons id rest =>
    obtain ⟨l, n1, hl, hlen⟩ := resolveSummaries_run (id :: rest) F (n + 1) st
    refine ⟨l, n1, ?_, ?_⟩
    · simp [ListChats, bindR, lrangeIndex, redisRead, hF, hids, hl]
    · calc l.length ≤ (id :: rest).length := hlen
        _ = ((st.index (userChatsKey u)).take 20).length := by rw [hids]
        _ ≤ 20 := (st.index (userChatsKey u)).length_take_le 20

theorem ListChats_nofaults (u : String) (F : Nat → Bool) (n : Nat) (st : St)
    (hF : NoFaults F) :
    ∃ n1 : Nat, ListChats u F n st =
      (Except.ok (((st.index (userChatsKey u)).take 20).filterMap (resolveMeta st)),
       n1, st) := by
  cases hids : (st.index (userChatsKey u)).take 20 with
  | nil =>
    refine ⟨n + 1, ?_⟩
    simp [ListChats, bindR, lrangeIndex, redisRead, hF n, hids, pureR]
  | cons id rest =>
    obtain ⟨n1, hl⟩ := resolveSummaries_nofaults (id :: rest) F (n + 1) st hF
    refine ⟨n1, ?_⟩
    simp [ListChats, bindR, lrangeIndex, redisRead, hF n, hids, hl]

/-! ### State-invariant preservation machinery -/

def PreservesSt (P : St → Prop) {α : Type} (m : RedisM α) : Prop :=
  ∀ F n st, P st → P (m F n st).2.2

theorem preserves_pureR (P : St → Prop) {α : Type} (a : α) :
    PreservesSt P (pureR a) := fun _ _ _ h => h

theorem preserves_throwE (P : St → Prop) {α : Type} (e : Err) :
    PreservesSt P (throwE e : RedisM α) := fun _ _ _ h => h

theorem preserves_redisRead (P : St → Prop) {α : Type} (r : St → α) :
    PreservesSt P (redisRead r) := by
  intro F n st h
  by_cases hF : F n <;> simp [redisRead, hF] <;> exact h

theorem preserves_redisWrite (P : St → Prop) (w : St → St)
    (hw : ∀ st, P st → P (w st)) : PreservesSt P (redisWrite w) := by
  intro F n st h
  by_cases hF : F n
  · simpa [redisWrite, hF] using h
  · simpa [redisWrite, hF] using hw st h

theorem preserves_bindR (P : St → Prop) {α β : Type} (x : RedisM α) (f : α → RedisM β)
    (hx : PreservesSt P x) (hf : ∀ a, PreservesSt P (f a)) :
    PreservesSt P (bindR x f) := by
  intro F n st h
  have h1 := hx F n st h
  rcases hx2 : x F n st with ⟨r, n1, st1⟩
  rw [hx2] at h1
  cases r with
  | ok a =>
    have := hf a F n1 st1 h1
    simpa [bindR, hx2] using this
  | error e => simpa [bindR, hx2] using h1

theorem preserves_tryCall (P : St → Prop) {α : Type} (m : RedisM α)
    (hm : PreservesSt P m) : PreservesSt P (tryCall m) := by
  intro F n st h
  have h1 := hm F n st h
  rcases hm2 : m F n st with ⟨r, n1, st1⟩
  rw [hm2] at h1
  cases r <;> simpa [tryCall, hm2] using h1

theorem indexNodup_rpushEffect (key : String) (v : Option Message) (st : St)
    (h : IndexNodup st) : IndexNodup (rpushEffect key v st) := h

theorem indexNodup_saveMetaEffect (u : String) (s : ChatSummary) (st : St)
    (h : IndexNodup st) : IndexNodup (saveMetaEffect u s st) := by
  intro k
  simp only [saveMetaEffect]
  split
  · refine List.nodup_cons.mpr ⟨?_, (h k).filter _⟩
    intro hmem
    rcases List.mem_filter.1 hmem with ⟨_, hx⟩
    simp at hx
  · exact h k

theorem preserves_touchChat (P : St → Prop) (now : Nat) (u cid c : String)
    (hsave : ∀ s st, P st → P (saveMetaEffect u s st)) :
    PreservesSt P (touchChat now u cid c) := by
  apply preserves_bindR
  · exact preserves_redisRead P _
  · intro a
    rcases a with _ | o
    · exact preserves_throwE P _
    · rcases o with _ | s
      · exact preserves_throwE P _
      · exact preserves_redisWrite P _ (fun st h => hsave _ st h)

theorem preserves_verifyOwner (P : St → Prop) (u cid : String) :
    PreservesSt P (verifyOwner u cid) := by
  apply preserves_bindR
  · exact preserves_redisRead P _
  · intro a
    rcases a with _ | o
    · exact preserves_pureR P _
    · exact preserves_pureR P _

theorem preserves_fetchMessages (P : St → Prop) (cid : String) :
    PreservesSt P (fetchMessages cid) := by
  apply preserves_bindR
  · exact preserves_redisRead P _
  · intro a; exact preserves_pureR P _

theorem preserves_ite (P : St → Prop) {α : Type} (b : Bool) (x y : RedisM α)
    (hx : PreservesSt P x) (hy : PreservesSt P y) :
    PreservesSt P (if b then x else y) := by
  cases b <;> simpa

theorem preserves_runOp_indexNodup (op : Op) : PreservesSt IndexNodup (runOp op) := by
  cases op with
  | opNew cid now u t =>
    simp only [runOp, NewChat]
    apply preserves_bindR
    · apply preserves_bindR
      · exact preserves_redisWrite _ _ (fun st h => indexNodup_saveMetaEffect u _ st h)
      · intro a; exact preserves_pureR _ _
    · intro a; exact preserves_pureR _ _
  | opAppend now u cid role content =>
    simp only [runOp, AppendMessage]
    apply preserves_bindR
    · apply preserves_bindR
      · exact preserves_verifyOwner _ u cid
      · intro ok
        cases ok
        · exact preserves_throwE _ _
        · simp only [Bool.not_true, Bool.false_eq_true, if_false]
          apply preserves_bindR
          · exact preserves_redisWrite _ _ (fun st h => indexNodup_rpushEffect _ _ st h)
          · intro a
            apply preserves_bindR
            · exact preserves_touchChat _ now u cid content
                (fun s st h => indexNodup_saveMetaEffect u s st h)
            · intro a; exact preserves_pureR _ _
    · intro a; exact preserves_pureR _ _
  | opRun ai now u cid model temp =>
    simp only [runOp, RunCompletion]
    apply preserves_bindR
    · apply preserves_bindR
      · exact preserves_verifyOwner _ u cid
      · intro ok
        cases ok
        · exact preserves_throwE _ _
        · simp only [Bool.not_true, Bool.false_eq_true, if_false]
          apply preserves_bindR
          · exact preserves_fetchMessages _ cid
          · intro messages
            rcases hai : ai model (messages.map (fun m => OMessage.mk m.role m.content))
                temp with _ | ⟨resp, usage⟩
            · simp only [hai]
              exact preserves_throwE _ _
            · simp only [hai]
              apply preserves_bindR
              · exact preserves_redisWrite _ _
                  (fun st h => indexNodup_rpushEffect _ _ st h)
              · intro a
                apply preserves_bindR
                · exact preserves_touchChat _ now u cid resp.content
                    (fun s st h => indexNodup_saveMetaEffect u s st h)
                · intro a; exact preserves_pureR _ _
    · intro a; exact preserves_pureR _ _

theorem preserves_runOps_indexNodup (ops : List Op) :
    PreservesSt IndexNodup (runOps ops) := by
  induction ops with
  | nil => exact preserves_pureR _ _
  | cons op rest ih =>
    exact preserves_bindR _ _ _
      (preserves_tryCall _ _ (preserves_runOp_indexNodup op)) (fun _ => ih)

theorem metaOwnerInv_saveMetaEffect (u : String) (s : ChatSummary) (st : St)
    (h : MetaOwnerInv st) : MetaOwnerInv (saveMetaEffect u s st) := by
  intro id
  simp only [saveMetaEffect]
  by_cases hid : id = s.id
  · subst hid; simp
  · rw [if_neg (fun hk => hid (chatMetaKey_inj hk)),
      if_neg (fun hk => hid (chatOwnerKey_inj hk))]
    exact h id

theorem chatOK_saveMetaEffect (u cid : String) (t : ChatSummary) (st : St)
    (hid : t.id = cid) : ChatOK (saveMetaEffect u t st) u cid := by
  constructor
  · simp [saveMetaEffect, hid]
  · exact ⟨t, by simp [saveMetaEffect, hid], hid⟩

theorem saveMetaEffect_index_head (u : String) (t : ChatSummary) (st : St) :
    ((saveMetaEffect u t st).index (userChatsKey u)).head? = some t.id := by
  simp [saveMetaEffect]

theorem runAppendEvents_ok (u cid : String) (events : List AppendEv)
    (F : Nat → Bool) (n : Nat) (st : St)
    (hF : NoFaults F) (hok : ChatOK st u cid) (hev : ∀ ev ∈ events, EvOK ev) :
    ∃ (ms : List Message) (n1 : Nat) (st1 : St),
      runAppendEvents u cid events F n st = (Except.ok ms, n1, st1) ∧
      ms.length = events.length ∧
      st1.msgs (chatMessagesKey cid) = st.msgs (chatMessagesKey cid) ++ ms.map some ∧
      ChatOK st1 u cid := by
  induction events generalizing n st with
  | nil =>
    exact ⟨[], n, st, rfl, rfl, by simp, hok⟩
  | cons ev rest ih =>
    obtain ⟨howner, s, hmeta, hsid⟩ := hok
    cases ev with
    | user now role content =>
      have happ := AppendMessage_ok now u cid role content F n st s
        (hF n) (hF _) (hF _) (hF _) howner hmeta
      have hok2 : ChatOK (saveMetaEffect u (touchedSummary s content now)
          (rpushEffect (chatMessagesKey cid) (some ⟨role, content, now⟩) st)) u cid :=
        chatOK_saveMetaEffect u cid _ _ (by rw [touchedSummary_id]; exact hsid)
      obtain ⟨ms, n1, st1, hrun, hlen, hmsgs, hok1⟩ :=
        ih (n + 4) _ hok2 (fun e he => hev e (List.mem_cons_of_mem _ he))
      refine ⟨⟨role, content, now⟩ :: ms, n1, st1, ?_, by simp [hlen], ?_, hok1⟩
      · simp [runAppendEvents, bindR, happ, hrun, pureR]
      · rw [hmsgs]
        have h2 : (saveMetaEffect u (touchedSummary s content now)
            (rpushEffect (chatMessagesKey cid) (some ⟨role, content, now⟩) st)).msgs
              (chatMessagesKey cid) =
            st.msgs (chatMessagesKey cid) ++ [some ⟨role, content, now⟩] := by
          simp [saveMetaEffect, rpushEffect]
        rw [h2, List.append_assoc]
        simp
    | reply ai now model temperature =>
      have hsome : (ai model
          (((st.msgs (chatMessagesKey cid)).filterMap id).map
            (fun m => OMessage.mk m.role m.content)) temperature).isSome :=
        hev _ (List.mem_cons_self _ _) model _ temperature
      obtain ⟨⟨resp, usage⟩, hai⟩ := Option.isSome_iff_exists.mp hsome
      have happ := RunCompletion_ok ai now u cid model temperature F n st s resp usage
        (hF n) (hF _) (hF _) (hF _) (hF _) howner hmeta hai
      have hok2 : ChatOK (saveMetaEffect u (touchedSummary s resp.content now)
          (rpushEffect (chatMessagesKey cid)
            (some ⟨resp.role, resp.content, now⟩) st)) u cid :=
        chatOK_saveMetaEffect u cid _ _ (by rw [touchedSummary_id]; exact hsid)
      obtain ⟨ms, n1, st1, hrun, hlen, hmsgs, hok1⟩ :=
        ih (n + 5) _ hok2 (fun e he => hev e (List.mem_cons_of_mem _ he))
      refine ⟨⟨resp.role, resp.content, now⟩ :: ms, n1, st1, ?_, by simp [hlen], ?_, hok1⟩
      · simp [runAppendEvents, bindR, happ, hrun, pureR]
      · rw [hmsgs]
        have h2 : (saveMetaEffect u (touchedSummary s resp.content now)
            (rpushEffect (chatMessagesKey cid)
              (some ⟨resp.role, resp.content, now⟩) st)).msgs
              (chatMessagesKey cid) =
            st.msgs (chatMessagesKey cid) ++ [some ⟨resp.role, resp.content, now⟩] := by
          simp [saveMetaEffect, rpushEffect]
        rw [h2, List.append_assoc]
        simp

theorem touchChat_fault_get (now : Nat) (u cid c : String) (F : Nat → Bool) (n : Nat)
    (st : St) (hF : F n = true) :
    touchChat now u cid c F n st = (Except.error Err.backingStore, n + 1, st) := by
  simp [touchChat, bindR, getMetaRaw, redisRead, hF]

theorem touchChat_fault_save (now : Nat) (u cid c : String) (F : Nat → Bool) (n : Nat)
    (st : St) (s : ChatSummary) (hF0 : F n = false) (hF1 : F (n + 1) = true)
    (hmeta : st.meta (chatMetaKey cid) = some (some s)) :
    touchChat now u cid c F n st = (Except.error Err.backingStore, n + 2, st) := by
  simp [touchChat, bindR, getMetaRaw, redisRead, hF0, hmeta, saveChatMeta, redisWrite, hF1]

/-! ### Claims -/

/-- C1: for every user U2 and chat identifier whose ownership record is
missing or names a different owner (string comparison is exact), both
GetChat and AppendMessage fail with the single unauthorized error value;
since the same value `Err.notAuthorized` is produced uniformly in the
missing-record and wrong-owner cases, the two situations are
indistinguishable to the caller. -/
theorem claimC1_unauthorized (u2 cid role content : String) (now : Nat)
    (F : Nat → Bool) (n : Nat) (st : St)
    (hF : F n = false)
    (hown : ∀ o, st.owner (chatOwnerKey cid) = some o → o ≠ u2) :
    (GetChat u2 cid F n st).1 = Except.error Err.notAuthorized ∧
    (AppendMessage now u2 cid role content F n st).1 = Except.error Err.notAuthorized := by
  have h1 := verifyOwner_run u2 cid F n st hF
  have hm : ownerMatches st u2 cid = false := by
    unfold ownerMatches
    cases ho : st.owner (chatOwnerKey cid) with
    | none => rfl
    | some o => simpa using hown o ho
  rw [hm] at h1
  constructor
  · simp [GetChat, bindR, h1, throwE]
  · simp [AppendMessage, bindR, h1, throwE]

theorem claimC1_witness :
    (GetChat "mallory@example.com" "c1" noFaultSched 0 st0).1 =
      Except.error Err.notAuthorized ∧
    (AppendMessage 5 "mallory@example.com" "nochat" "user" "hi" noFaultSched 0 st0).1 =
      Except.error Err.notAuthorized := by
  refine ⟨(claimC1_unauthorized "mallory@example.com" "c1" "user" "hi" 5
      noFaultSched 0 st0 rfl ?_).1,
    (claimC1_unauthorized "mallory@example.com" "nochat" "user" "hi" 5
      noFaultSched 0 st0 rfl ?_).2⟩
  · intro o ho
    simp [st0, chatOwnerKey] at ho
    subst ho
    decide
  · intro o ho
    simp [st0, chatOwnerKey] at ho

/-- C2: NewChat issues the summary record, the ownership record and the
duplicate-free front insertion into the user's index as one transactional
batch: on success all three effects are visible, on failure the state is
untouched; in both cases the summary-record/ownership-record pairing
invariant is preserved. -/
theorem claimC2_newchat_atomic (cid : String) (now : Nat) (u title : String)
    (F : Nat → Bool) (n : Nat) (st : St) (hinv : MetaOwnerInv st) :
    ((∃ s : ChatSummary,
        (NewChat cid now u title F n st).1 = Except.ok s ∧
        (NewChat cid now u title F n st).2.2.meta (chatMetaKey cid) = some (some s) ∧
        (NewChat cid now u title F n st).2.2.owner (chatOwnerKey cid) = some u ∧
        (NewChat cid now u title F n st).2.2.index (userChatsKey u) =
          cid :: (st.index (userChatsKey u)).filter (fun x => x != cid)) ∨
      ((∃ e, (NewChat cid now u title F n st).1 = Except.error e) ∧
        (NewChat cid now u title F n st).2.2 = st)) ∧
    MetaOwnerInv (NewChat cid now u title F n st).2.2 := by
  have h := NewChat_run cid now u title F n st
  by_cases hF : F n
  · rw [if_pos hF] at h
    rw [h]
    exact ⟨Or.inr ⟨⟨_, rfl⟩, rfl⟩, hinv⟩
  · rw [if_neg hF] at h
    rw [h]
    refine ⟨Or.inl ⟨_, rfl, ?_, ?_, ?_⟩, metaOwnerInv_saveMetaEffect u _ st hinv⟩
    · simp [saveMetaEffect]
    · simp [saveMetaEffect]
    · simp [saveMetaEffect]

theorem metaOwnerInv_st0 : MetaOwnerInv st0 := by
  intro id
  by_cases h : id = "c1"
  · subst h; simp [st0]
  · simp only [st0]
    rw [if_neg (fun hk => h (chatMetaKey_inj hk)),
      if_neg (fun hk => h (chatOwnerKey_inj hk))]
    simp

theorem claimC2_witness :
    MetaOwnerInv (NewChat "c9" 7 "u@example.com" "  " noFaultSched 0 st0).2.2 :=
  (claimC2_newchat_atomic "c9" 7 "u@example.com" "  " noFaultSched 0 st0
    metaOwnerInv_st0).2

/-- C3 counterexample: the derivation guard only checks that the stored
title equals the sentinel string. Appending content whose trimmed form is
exactly "New chat" performs a derivation that leaves the title equal to the
sentinel, so a later append derives the title again: after the first
non-empty append the title is "New chat", and a second append changes it to
"hello", contradicting that no subsequent append ever changes the title. -/
theorem claimC3_counterexample :
    st1c.meta (chatMetaKey "c1") = some (some ⟨"c1", "New chat", 1⟩) ∧
    st2c.meta (chatMetaKey "c1") = some (some ⟨"c1", "hello", 2⟩) ∧
    "hello" ≠ "New chat" := by
  refine ⟨by decide, by decide, by decide⟩

/-- C3 amended: an append through the owner derives the title exactly when
the stored title is still the sentinel "New chat" and the content trims
non-empty, and then sets it to the first 32 characters of the trimmed
content (hard cut); an append on a chat whose title differs from the
sentinel never changes the title. Derivation is therefore one-shot unless
a derivation itself produced the sentinel (trimmed content exactly
"New chat"), in which case a later append may derive again. -/
theorem claimC3_title_derivation (u cid role content : String) (now : Nat)
    (F : Nat → Bool) (n : Nat) (st : St) (s : ChatSummary)
    (hF : NoFaults F)
    (howner : st.owner (chatOwnerKey cid) = some u)
    (hmeta : st.meta (chatMetaKey cid) = some (some s)) (hsid : s.id = cid) :
    (s.title = "New chat" → trimSpace content ≠ "" →
      ∃ s2, (AppendMessage now u cid role content F n st).2.2.meta (chatMetaKey cid) =
          some (some s2) ∧
        s2.title = summarizeTitle content ∧
        summarizeTitle content = (trimSpace content).take 32) ∧
    (s.title ≠ "New chat" →
      ∃ s2, (AppendMessage now u cid role content F n st).2.2.meta (chatMetaKey cid) =
          some (some s2) ∧
        s2.title = s.title) := by
  have happ := AppendMessage_ok now u cid role content F n st s
    (hF n) (hF _) (hF _) (hF _) howner hmeta
  rw [happ]
  have hkey : chatMetaKey cid = chatMetaKey (touchedSummary s content now).id := by
    rw [touchedSummary_id, hsid]
  constructor
  · intro h1 h2
    refine ⟨touchedSummary s content now, ?_, ?_, summarizeTitle_eq_take content⟩
    · simp [saveMetaEffect, hkey]
    · exact touchedSummary_title_derive s content now h1 h2
  · intro h1
    refine ⟨touchedSummary s content now, ?_, ?_⟩
    · simp [saveMetaEffect, hkey]
    · exact touchedSummary_title_keep s content now h1

theorem claimC3_witness :
    ∃ s2, (AppendMessage 3 "u@example.com" "c1" "user" "  hi there  "
        noFaultSched 0 st0).2.2.meta (chatMetaKey "c1") = some (some s2) ∧
      s2.title = summarizeTitle "  hi there  " ∧
      summarizeTitle "  hi there  " = (trimSpace "  hi there  ").take 32 :=
  (claimC3_title_derivation "u@example.com" "c1" "user" "  hi there  " 3
    noFaultSched 0 st0 sum1 (fun _ => rfl) (by decide) (by decide) rfl).1
    (by decide) (by decide)

/-- C4: on a chat with an empty log, any sequence of N successful appends
(direct AppendMessage calls or RunCompletion reply stores, in any mix)
stores exactly N messages, and a subsequent GetChat by the owner returns
exactly those N messages in append order: every write goes to the tail and
reads return the whole log oldest first. -/
theorem claimC4_append_order (u cid : String) (events : List AppendEv)
    (F : Nat → Bool) (n : Nat) (st : St)
    (hF : NoFaults F) (hok : ChatOK st u cid)
    (hev : ∀ ev ∈ events, EvOK ev)
    (hempty : st.msgs (chatMessagesKey cid) = []) :
    ∃ (ms : List Message) (n1 : Nat) (st1 : St),
      runAppendEvents u cid events F n st = (Except.ok ms, n1, st1) ∧
      ms.length = events.length ∧
      ∃ (s2 : ChatSummary) (n2 : Nat),
        GetChat u cid F n1 st1 = (Except.ok ⟨s2, ms⟩, n2, st1) := by
  obtain ⟨ms, n1, st1, hrun, hlen, hmsgs, hok1⟩ :=
    runAppendEvents_ok u cid events F n st hF hok hev
  obtain ⟨howner1, s2, hmeta1, hsid1⟩ := hok1
  refine ⟨ms, n1, st1, hrun, hlen, s2, n1 + 3, ?_⟩
  have hget := GetChat_ok u cid F n1 st1 s2 (hF _) (hF _) (hF _) howner1 hmeta1
  rw [hget, hmsgs, hempty]
  simp [List.filterMap_map]

theorem chatOK_st0 : ChatOK st0 "u@example.com" "c1" :=
  ⟨by decide, sum1, by decide, rfl⟩

theorem claimC4_witness :
    ∃ (ms : List Message) (n1 : Nat) (st1 : St),
      runAppendEvents "u@example.com" "c1"
          [AppendEv.user 1 "user" "hello there", AppendEv.reply aiStub 2 "model-x" 1,
           AppendEv.user 3 "user" "thanks"] noFaultSched 0 st0 =
        (Except.ok ms, n1, st1) ∧
      ms.length = 3 ∧
      ∃ (s2 : ChatSummary) (n2 : Nat),
        GetChat "u@example.com" "c1" noFaultSched n1 st1 =
          (Except.ok ⟨s2, ms⟩, n2, st1) :=
  claimC4_append_order "u@example.com" "c1"
    [AppendEv.user 1 "user" "hello there", AppendEv.reply aiStub 2 "model-x" 1,
     AppendEv.user 3 "user" "thanks"] noFaultSched 0 st0 (fun _ => rfl) chatOK_st0
    (by
      intro ev hev
      simp only [List.mem_cons, List.mem_singleton] at hev
      rcases hev with h | h | h
      · subst h; trivial
      · subst h; intro m ms t; rfl
      · simp at h; subst h; trivial)
    rfl

/-- C5: EnsureChat returns the head of the user's listing (the
most-recently-touched resolvable chat) and leaves the store untouched when
the listing is non-empty; only when the listing is empty does it create
exactly one fresh chat carrying the sentinel title "New chat" and return
its summary. It never creates a chat when one already exists. -/
theorem claimC5_ensure_chat (freshID : String) (now : Nat) (u : String)
    (F : Nat → Bool) (n : Nat) (st : St) (hF : NoFaults F) :
    (∀ s rest, (ListChats u F n st).1 = Except.ok (s :: rest) →
      ∃ n1, EnsureChat freshID now u F n st = (Except.ok s, n1, st)) ∧
    ((ListChats u F n st).1 = Except.ok [] →
      ∃ n1, EnsureChat freshID now u F n st =
        (Except.ok ⟨freshID, "New chat", now⟩, n1,
         saveMetaEffect u ⟨freshID, "New chat", now⟩ st)) := by
  obtain ⟨n1, hl⟩ := ListChats_nofaults u F n st hF
  constructor
  · intro s rest hhead
    rw [hl] at hhead
    refine ⟨n1, ?_⟩
    simp only [EnsureChat, bindR, hl]
    rw [Except.ok.injEq] at hhead
    rw [hhead]
    rfl
  · intro hhead
    rw [hl] at hhead
    rw [Except.ok.injEq] at hhead
    have hnew := NewChat_run freshID now u "New chat" F n1 st
    rw [if_neg (by simp [hF n1])] at hnew
    have htitle : (if trimSpace "New chat" = "" then "New chat" else "New chat")
        = "New chat" := by simp
    refine ⟨n1 + 1, ?_⟩
    simp only [EnsureChat, bindR, hl, hhead]
    simp only [hnew]
    simp

theorem claimC5_witness :
    ∃ n1, EnsureChat "c9" 9 "u@example.com" noFaultSched 0 st0 =
      (Except.ok sum1, n1, st0) := by
  refine (claimC5_ensure_chat "c9" 9 "u@example.com" noFaultSched 0 st0
    (fun _ => rfl)).1 sum1 [] ?_
  rfl

/-- C6: the user chat index never holds a chat identifier twice across any
sequence of store-mutating requests, and a successful NewChat,
AppendMessage or RunCompletion leaves the affected chat identifier at the
front of the owning user's index. -/
theorem claimC6_index_recency :
    (∀ (ops : List Op) (F : Nat → Bool) (n : Nat) (st : St),
      IndexNodup st → IndexNodup (runOps ops F n st).2.2) ∧
    (∀ cid now u title F n st, F n = false →
      ((NewChat cid now u title F n st).2.2.index (userChatsKey u)).head? = some cid) ∧
    (∀ now u cid role content F n st s,
      NoFaults F → st.owner (chatOwnerKey cid) = some u →
      st.meta (chatMetaKey cid) = some (some s) → s.id = cid →
      ((AppendMessage now u cid role content F n st).2.2.index
        (userChatsKey u)).head? = some cid) ∧
    (∀ ai now u cid model temperature F n st s resp usage,
      NoFaults F → st.owner (chatOwnerKey cid) = some u →
      st.meta (chatMetaKey cid) = some (some s) → s.id = cid →
      ai model (((st.msgs (chatMessagesKey cid)).filterMap id).map
        (fun m => OMessage.mk m.role m.content)) temperature = some (resp, usage) →
      ((RunCompletion ai now u cid model temperature F n st).2.2.index
        (userChatsKey u)).head? = some cid) := by
  refine ⟨fun ops F n st h => preserves_runOps_indexNodup ops F n st h, ?_, ?_, ?_⟩
  · intro cid now u title F n st hF
    have h := NewChat_run cid now u title F n st
    rw [if_neg (by simp [hF])] at h
    rw [h]
    exact saveMetaEffect_index_head u _ st
  · intro now u cid role content F n st s hF howner hmeta hsid
    have h := AppendMessage_ok now u cid role content F n st s
      (hF n) (hF _) (hF _) (hF _) howner hmeta
    rw [h]
    have := saveMetaEffect_index_head u (touchedSummary s content now)
      (rpushEffect (chatMessagesKey cid) (some ⟨role, content, now⟩) st)
    rw [touchedSummary_id, hsid] at this
    exact this
  · intro ai now u cid model temperature F n st s resp usage hF howner hmeta hsid hai
    have h := RunCompletion_ok ai now u cid model temperature F n st s resp usage
      (hF n) (hF _) (hF _) (hF _) (hF _) howner hmeta hai
    rw [h]
    have := saveMetaEffect_index_head u (touchedSummary s resp.content now)
      (rpushEffect (chatMessagesKey cid) (some ⟨resp.role, resp.content, now⟩) st)
    rw [touchedSummary_id, hsid] at this
    exact this

theorem claimC6_witness :
    ((NewChat "c9" 7 "u@example.com" "Trip" noFaultSched 0 st0).2.2.index
      (userChatsKey "u@example.com")).head? = some "c9" :=
  claimC6_index_recency.2.1 "c9" 7 "u@example.com" "Trip" noFaultSched 0 st0 rfl

/-- C7: ListChats returns at most 20 summaries, resolving the up-to-20
most recent index identifiers in order and silently skipping entries whose
summary record is missing or does not decode; a bad record never fails the
listing, and the whole call leaves the store unchanged. -/
theorem claimC7_list_chats (u : String) (F : Nat → Bool) (n : Nat) (st : St) :
    (F n = false →
      ∃ (l : List ChatSummary) (n1 : Nat),
        ListChats u F n st = (Except.ok l, n1, st) ∧ l.length ≤ 20) ∧
    (NoFaults F →
      ∃ n1, ListChats u F n st =
        (Except.ok (((st.index (userChatsKey u)).take 20).filterMap (resolveMeta st)),
         n1, st)) :=
  ⟨fun hF => ListChats_run u F n st hF, fun hF => ListChats_nofaults u F n st hF⟩

theorem claimC7_witness :
    (∃ n1, ListChats "u@example.com" noFaultSched 0 stList =
      (Except.ok (((stList.index (userChatsKey "u@example.com")).take 20).filterMap
        (resolveMeta stList)), n1, stList)) ∧
    ((stList.index (userChatsKey "u@example.com")).take 20).filterMap
      (resolveMeta stList) = [sum1] :=
  ⟨(claimC7_list_chats "u@example.com" noFaultSched 0 stList).2 (fun _ => rfl),
   by decide⟩

/-- C8: RunCompletion never appends the caller's own prompting message: on
backend success the chat log grows by exactly one message, the backend's
reply with its role and content, at the tail, and the summary is touched
with the reply content; on backend failure the whole store (message log
and summary included) is left unchanged. -/
theorem claimC8_run_completion
    (ai : String → List OMessage → Rat → Option (OMessage × Usage))
    (now : Nat) (u cid model : String) (temperature : Rat)
    (F : Nat → Bool) (n : Nat) (st : St) :
    (∀ s resp usage,
      NoFaults F → st.owner (chatOwnerKey cid) = some u →
      st.meta (chatMetaKey cid) = some (some s) → s.id = cid →
      ai model (((st.msgs (chatMessagesKey cid)).filterMap id).map
        (fun m => OMessage.mk m.role m.content)) temperature = some (resp, usage) →
      (RunCompletion ai now u cid model temperature F n st).1 =
        Except.ok (⟨resp.role, resp.content, now⟩, usage) ∧
      (RunCompletion ai now u cid model temperature F n st).2.2.msgs
          (chatMessagesKey cid) =
        st.msgs (chatMessagesKey cid) ++ [some ⟨resp.role, resp.content, now⟩] ∧
      (RunCompletion ai now u cid model temperature F n st).2.2.meta
          (chatMetaKey cid) =
        some (some (touchedSummary s resp.content now))) ∧
    ((∀ m ms t, ai m ms t = none) →
      (∃ e, (RunCompletion ai now u cid model temperature F n st).1 =
        Except.error e) ∧
      (RunCompletion ai now u cid model temperature F n st).2.2 = st) := by
  constructor
  · intro s resp usage hF howner hmeta hsid hai
    have h := RunCompletion_ok ai now u cid model temperature F n st s resp usage
      (hF n) (hF _) (hF _) (hF _) (hF _) howner hmeta hai
    rw [h]
    have hkey : chatMetaKey cid = chatMetaKey (touchedSummary s resp.content now).id := by
      rw [touchedSummary_id, hsid]
    refine ⟨rfl, ?_, ?_⟩
    · simp [saveMetaEffect, rpushEffect]
    · simp [saveMetaEffect, hkey]
  · intro hai
    exact RunCompletion_backend_failure ai now u cid model temperature F n st hai

theorem claimC8_witness :
    (RunCompletion aiStub 4 "u@example.com" "c1" "model-x" 1 noFaultSched 0 st0).1 =
      Except.ok (⟨"assistant", "fine", 4⟩, ⟨1, 1, 2⟩) ∧
    (RunCompletion aiStub 4 "u@example.com" "c1" "model-x" 1 noFaultSched 0
        st0).2.2.msgs (chatMessagesKey "c1") =
      st0.msgs (chatMessagesKey "c1") ++ [some ⟨"assistant", "fine", 4⟩] ∧
    (RunCompletion aiStub 4 "u@example.com" "c1" "model-x" 1 noFaultSched 0
        st0).2.2.meta (chatMetaKey "c1") =
      some (some (touchedSummary sum1 "fine" 4)) :=
  (claimC8_run_completion aiStub 4 "u@example.com" "c1" "model-x" 1
    noFaultSched 0 st0).1 sum1 ⟨"assistant", "fine"⟩ ⟨1, 1, 2⟩
    (fun _ => rfl) (by decide) (by decide) rfl rfl

/-- C9 counterexample: AppendMessage performs no role validation. With the
owner calling on chat c1, the role "system" — outside {"user","assistant"}
— is accepted: the call succeeds (no ValidationError exists in the code)
and the message is stored in the log with that role verbatim. -/
theorem claimC9_counterexample :
    (AppendMessage 1 "u@example.com" "c1" "system" "hi" noFaultSched 0 st0).1 =
      Except.ok ⟨"system", "hi", 1⟩ ∧
    (AppendMessage 1 "u@example.com" "c1" "system" "hi" noFaultSched 0 st0).2.2.msgs
      (chatMessagesKey "c1") = [some ⟨"system", "hi", 1⟩] := by
  exact ⟨rfl, by decide⟩

/-- C9 amended: AppendMessage does not validate the role argument: for
every role string whatsoever, an owner append on a well-formed chat
succeeds and stores the message with the caller-supplied role verbatim at
the tail of the log; no validation error is ever produced for the role. -/
theorem claimC9_no_role_validation (now : Nat) (u cid role content : String)
    (F : Nat → Bool) (n : Nat) (st : St) (s : ChatSummary)
    (hF : NoFaults F) (howner : st.owner (chatOwnerKey cid) = some u)
    (hmeta : st.meta (chatMetaKey cid) = some (some s)) :
    (AppendMessage now u cid role content F n st).1 =
      Except.ok ⟨role, content, now⟩ ∧
    (AppendMessage now u cid role content F n st).2.2.msgs (chatMessagesKey cid) =
      st.msgs (chatMessagesKey cid) ++ [some ⟨role, content, now⟩] := by
  have h := AppendMessage_ok now u cid role content F n st s
    (hF n) (hF _) (hF _) (hF _) howner hmeta
  rw [h]
  exact ⟨rfl, by simp [saveMetaEffect, rpushEffect]⟩

theorem claimC9_witness :
    (AppendMessage 2 "u@example.com" "c1" "tool" "output" noFaultSched 0 st0).1 =
      Except.ok ⟨"tool", "output", 2⟩ ∧
    (AppendMessage 2 "u@example.com" "c1" "tool" "output" noFaultSched 0
        st0).2.2.msgs (chatMessagesKey "c1") =
      st0.msgs (chatMessagesKey "c1") ++ [some ⟨"tool", "output", 2⟩] :=
  claimC9_no_role_validation 2 "u@example.com" "c1" "tool" "output"
    noFaultSched 0 st0 sum1 (fun _ => rfl) (by decide) (by decide)

/-- C10: AppendMessage is not atomic across its two writes. When the
message RPush succeeds but the following summary touch fails (either of
its two redis calls failing), AppendMessage returns an error while the
message remains stored at the tail of the log, and a later fault-free
GetChat by the owner returns a log ending in that message: an error return
from AppendMessage does not mean the log is unchanged. -/
theorem claimC10_append_not_atomic (now : Nat) (u cid role content : String)
    (F : Nat → Bool) (n : Nat) (st : St) (s : ChatSummary)
    (hF0 : F n = false) (hF1 : F (n + 1) = false)
    (htouch : F (n + 2) = true ∨ F (n + 3) = true)
    (howner : st.owner (chatOwnerKey cid) = some u)
    (hmeta : st.meta (chatMetaKey cid) = some (some s)) :
    (∃ e, (AppendMessage now u cid role content F n st).1 = Except.error e) ∧
    (AppendMessage now u cid role content F n st).2.2.msgs (chatMessagesKey cid) =
      st.msgs (chatMessagesKey cid) ++ [some ⟨role, content, now⟩] ∧
    (∀ G n2, NoFaults G →
      ∃ (s2 : ChatSummary) (n3 : Nat),
        GetChat u cid G n2 (AppendMessage now u cid role content F n st).2.2 =
          (Except.ok ⟨s2, (st.msgs (chatMessagesKey cid)).filterMap id ++
            [⟨role, content, now⟩]⟩, n3,
           (AppendMessage now u cid role content F n st).2.2)) := by
  have happ : ∃ nx, AppendMessage now u cid role content F n st =
      (Except.error Err.backingStore, nx,
       rpushEffect (chatMessagesKey cid) (some ⟨role, content, now⟩) st) := by
    have h1 := verifyOwner_run u cid F n st hF0
    rw [ownerMatches_true st u cid howner] at h1
    by_cases h2 : F (n + 2)
    · have htc := touchChat_fault_get now u cid content F (n + 2)
        (rpushEffect (chatMessagesKey cid) (some ⟨role, content, now⟩) st) h2
      exact ⟨n + 3, by simp only [AppendMessage, bindR, h1, rpushMsg, redisWrite, hF1,
        Bool.not_true, Bool.false_eq_true, if_false, htc]⟩
    · have h2f : F (n + 2) = false := by simpa using h2
      have h3 : F (n + 3) = true := htouch.resolve_left (by simp [h2f])
      have htc := touchChat_fault_save now u cid content F (n + 2)
        (rpushEffect (chatMessagesKey cid) (some ⟨role, content, now⟩) st) s h2f h3 hmeta
      exact ⟨n + 4, by simp only [AppendMessage, bindR, h1, rpushMsg, redisWrite, hF1,
        Bool.not_true, Bool.false_eq_true, if_false, htc]⟩
  obtain ⟨nx, happ⟩ := happ
  rw [happ]
  refine ⟨⟨Err.backingStore, rfl⟩, by simp [rpushEffect], ?_⟩
  intro G n2 hG
  refine ⟨s, n2 + 3, ?_⟩
  have hget := GetChat_ok u cid G n2
    (rpushEffect (chatMessagesKey cid) (some ⟨role, content, now⟩) st) s
    (hG _) (hG _) (hG _) howner hmeta
  rw [hget]
  have hm2 : ((rpushEffect (chatMessagesKey cid) (some ⟨role, content, now⟩)
        st).msgs (chatMessagesKey cid)).filterMap id =
      (st.msgs (chatMessagesKey cid)).filterMap id ++ [⟨role, content, now⟩] := by
    simp [rpushEffect]
  rw [hm2]

theorem claimC10_witness :
    (∃ e, (AppendMessage 1 "u@example.com" "c1" "user" "hi" faultAt3 0 st0).1 =
      Except.error e) ∧
    (AppendMessage 1 "u@example.com" "c1" "user" "hi" faultAt3 0 st0).2.2.msgs
      (chatMessagesKey "c1") =
      st0.msgs (chatMessagesKey "c1") ++ [some ⟨"user", "hi", 1⟩] :=
  ⟨(claimC10_append_not_atomic 1 "u@example.com" "c1" "user" "hi" faultAt3 0 st0
      sum1 rfl rfl (Or.inr rfl) (by decide) (by decide)).1,
   (claimC10_append_not_atomic 1 "u@example.com" "c1" "user" "hi" faultAt3 0 st0
      sum1 rfl rfl (Or.inr rfl) (by decide) (by decide)).2.1⟩
